import Mathlib

/-!
Verification of the Kiteapp histogram query engine.

Shallow embedding of `backend/data/histogram_repository.py`,
`backend/services/spot_service.py` and
`data_pipelines/services/sustained_wind_builder.py`.

Numeric histogram cells (numpy float32 counts) are modelled as exact
rationals; day-of-year strings keep their "MM-DD" form and are compared
with the lexicographic `String` order, matching Python string comparison.
-/

namespace Kiteapp

/-- Lexicographic string comparison (Python `<=` on `"MM-DD"` strings),
computed on the character list; `strLE_iff` below identifies it with the
`String` order. -/
def strLE (a b : String) : Bool := decide (a.toList ≤ b.toList)

/-- Lexicographic string comparison (Python `<` on `"MM-DD"` strings),
computed on the character list. -/
def strLT (a b : String) : Bool := decide (a.toList < b.toList)

theorem strLE_iff {a b : String} : strLE a b = true ↔ a ≤ b := by
  rw [strLE, decide_eq_true_eq, String.le_iff_toList_le]

theorem strLT_iff {a b : String} : strLT a b = true ↔ a < b := by
  rw [strLT, decide_eq_true_eq, String.lt_iff_toList_lt]

/-- Index lookup in an ordered id list: first index holding `d`, or `none`.
Embeds the Python dicts built by `enumerate` over the list
(`_1d_day_to_idx`, `_1d_spot_to_idx`, `spot_id_to_idx`); for the
duplicate-free lists the repository loads, first match equals the dict
entry. -/
def strIdx : List String → String → Option ℕ
  | [], _ => none
  | x :: xs, d => if x = d then some 0 else (strIdx xs d).map (· + 1)

/-- Embeds `HistogramRepository._get_day_range_cached`: `(start_idx, end_idx, wraps)`
with fallback to index `0` for an unknown start date and to the last index
for an unknown end date; `wraps` iff `start_date > end_date`. -/
def dayRangeIdx (days : List String) (startDate endDate : String) : ℕ × ℕ × Bool :=
  ((strIdx days startDate).getD 0,
   (strIdx days endDate).getD (days.length - 1),
   strLT endDate startDate)

/-- Elementwise predicate of `HistogramRepository._get_day_mask_cached`:
`(days >= start_date) & (days <= end_date)` for a non-wrapping range,
`(days >= start_date) | (days <= end_date)` for a wrapping one. -/
def inDayRange (startDate endDate d : String) : Bool :=
  if strLE startDate endDate then strLE startDate d && strLE d endDate
  else strLE startDate d || strLE d endDate

/-- Embeds `HistogramRepository._get_day_mask_cached`: boolean mask over the
366-slot calendar. -/
def dayMask (days : List String) (startDate endDate : String) : List Bool :=
  days.map (inDayRange startDate endDate)

/-- Set of day indices selected by the day mask (the rows kept by
`spot_data[day_mask, :]`). -/
def selectedDays (days : List String) (startDate endDate : String) : Finset ℕ :=
  (Finset.range days.length).filter
    (fun i => inDayRange startDate endDate (days.getD i "") = true)

/-- Day-axis cumulative sum with a leading zero, per (spot, bin) slice:
`prefix[s, d, b] = sum of data[s, 0:d, b]` from
`HistogramRepository._load_1d_data`. -/
def cumSum (f : ℕ → ℚ) (d : ℕ) : ℚ := ∑ i ∈ Finset.range d, f i

/-- Embeds `HistogramRepository.get_range_sums`, one (spot, bin) slice: range sum
over the requested date range via prefix-sum subtraction, with the
wrap-around split `[start, last_day] + [0, end]`. `f d` is the volume cell
at day index `d` for the fixed spot and bin. -/
def rangeSum (days : List String) (f : ℕ → ℚ) (startDate endDate : String) : ℚ :=
  let r := dayRangeIdx days startDate endDate
  if r.2.2 = false then
    cumSum f (r.2.1 + 1) - cumSum f r.1
  else
    (cumSum f days.length - cumSum f r.1) + cumSum f (r.2.1 + 1)

/-- Embeds `SpotService.filter_spots` lines 207-209: a requested `wind_max` at or
above the sentinel 100 becomes `float("inf")`, modelled as `⊤` in
`WithTop ℚ`. -/
def effWindMax (windMax : ℚ) : WithTop ℚ :=
  if 100 ≤ windMax then ⊤ else (windMax : WithTop ℚ)

/-- Embeds `HistogramRepository._get_bin_mask_cached`: for each bin
`i < len(bins) - 1`, the bin `[bins[i], bins[i+1])` is selected iff
`bins[i] < wind_max` and `bins[i+1] > wind_min`. `wind_max` ranges over
`WithTop ℚ` because callers may pass `float("inf")`. -/
def binMask (bins : List ℚ) (windMin : ℚ) (windMax : WithTop ℚ) : List Bool :=
  (List.range (bins.length - 1)).map
    (fun i => decide ((bins.getD i 0 : WithTop ℚ) < windMax) &&
      decide (windMin < bins.getD (i + 1) 0))

/-- Set of bin indices selected by the bin mask (the columns kept by
`filtered[:, bin_mask]`). -/
def selectedBins (bins : List ℚ) (windMin : ℚ) (windMax : WithTop ℚ) : Finset ℕ :=
  (Finset.range (bins.length - 1)).filter
    (fun i => (binMask bins windMin windMax).getD i false = true)

/-- The `total` local of `SpotService.calculate_kiteable_percentage`: sum of the
spot's masked day rows over all bins. `data s d b` is the volume cell for
spot index `s`, day index `d`, bin index `b`. -/
def spotTotal (days : List String) (bins : List ℚ) (data : ℕ → ℕ → ℕ → ℚ)
    (idx : ℕ) (startDate endDate : String) : ℚ :=
  ∑ d ∈ selectedDays days startDate endDate,
    ∑ b ∈ Finset.range (bins.length - 1), data idx d b

/-- The `in_range` local of `SpotService.calculate_kiteable_percentage`: same sum
restricted to the bin-mask columns. -/
def spotInRange (days : List String) (bins : List ℚ) (data : ℕ → ℕ → ℕ → ℚ)
    (idx : ℕ) (windMin : ℚ) (windMax : WithTop ℚ)
    (startDate endDate : String) : ℚ :=
  ∑ d ∈ selectedDays days startDate endDate,
    ∑ b ∈ selectedBins bins windMin windMax, data idx d b

/-- Embeds `SpotService.calculate_kiteable_percentage` for a loaded volume:
resolve the spot index, apply day and bin masks to the spot's
`(366, num_bins)` slice, return `None` on zero total, else
`(in_range / total) * 100`. -/
def kiteablePct (days : List String) (bins : List ℚ) (spotIds : List String)
    (data : ℕ → ℕ → ℕ → ℚ) (spotId : String)
    (windMin : ℚ) (windMax : WithTop ℚ) (startDate endDate : String) : Option ℚ :=
  match strIdx spotIds spotId with
  | none => none
  | some idx =>
    if spotTotal days bins data idx startDate endDate = 0 then none
    else some (spotInRange days bins data idx windMin windMax startDate endDate
      / spotTotal days bins data idx startDate endDate * 100)

/-- The `totals` local of `SpotService._calculate_all_percentages_array`, entry for
spot index `s`: sum of the prefix-sum `range_sums` row over all bins. -/
def rangeTotals (days : List String) (bins : List ℚ) (data : ℕ → ℕ → ℕ → ℚ)
    (startDate endDate : String) (s : ℕ) : ℚ :=
  ∑ b ∈ Finset.range (bins.length - 1),
    rangeSum days (fun d => data s d b) startDate endDate

/-- The `in_range` local of `SpotService._calculate_all_percentages_array`: sum of
the `range_sums` row over the bin-mask columns. -/
def rangeInRange (days : List String) (bins : List ℚ) (data : ℕ → ℕ → ℕ → ℚ)
    (windMin : ℚ) (windMax : WithTop ℚ) (startDate endDate : String)
    (s : ℕ) : ℚ :=
  ∑ b ∈ selectedBins bins windMin windMax,
    rangeSum days (fun d => data s d b) startDate endDate

/-- Embeds `SpotService._calculate_all_percentages_array`, entry for spot index
`s`: `np.where(totals > 0, (in_range / totals) * 100, 0)`. -/
def allPctArray (days : List String) (bins : List ℚ) (data : ℕ → ℕ → ℕ → ℚ)
    (windMin : ℚ) (windMax : WithTop ℚ) (startDate endDate : String) (s : ℕ) : ℚ :=
  if 0 < rangeTotals days bins data startDate endDate s then
    rangeInRange days bins data windMin windMax startDate endDate s
      / rangeTotals days bins data startDate endDate s * 100
  else 0

/-- Modelled from the spec: `HistogramRepository.get_sustained_bin_index`
is called from `SpotService` but absent from the repository class in the
tree; spec section 4.3 defines it as the first bin index whose low edge is
at or above the threshold. -/
def sustainedBinIndex (bins : List ℚ) (threshold : ℚ) : ℕ :=
  bins.findIdx (fun e => threshold ≤ e)

/-- Embeds `SpotService._calculate_sustained_percentages_array`, with the missing
`HistogramRepository.get_sustained_data` modelled from the spec (section
4.3: an absent backing file reports no data, here `none`): when the
sustained volume is present, for each spot sum the stored per-day values
from the threshold bin onwards and average over the selected days
(`.mean(axis=1)`, i.e. divide by the number of selected days). -/
def sustainedPctArray (days : List String) (numBins : ℕ) (bins : List ℚ)
    (sdata : Option (ℕ → ℕ → ℕ → ℚ))
    (threshold : ℚ) (startDate endDate : String) : Option (ℕ → ℚ) :=
  sdata.map (fun v s =>
    let D := selectedDays days startDate endDate
    let bi := sustainedBinIndex bins threshold
    (∑ d ∈ D, ∑ b ∈ Finset.Ico bi numBins, v s d b) / (D.card : ℚ))

/-- Modelled from the spec: the ETL step that serializes
`DailySustainedWind.daily_percentages` is absent from the tree; per the
model class doc ("percentage per bin (sums to 100)") and spec section 4.5,
the stored per-day value for bin `b` is `100 * count_b / Σ_b count_b`. -/
def normalizePerDay (numBins : ℕ) (counts : ℕ → ℚ) (b : ℕ) : ℚ :=
  100 * counts b / (∑ b2 ∈ Finset.range numBins, counts b2)

/-- Embeds `np.histogram(values, bins=edges)` as used by
`SustainedWindBuilder.build_daily_sustained_wind`: half-open bins
`[e_i, e_i+1)`, last bin closed; edges live in `WithTop ℚ` since
`WIND_BINS` ends in `float("inf")`. -/
def npHistogram : List (WithTop ℚ) → List ℚ → List ℕ
  | [a, b], values =>
      [values.countP (fun (v : ℚ) => decide (a ≤ (v : WithTop ℚ)) &&
        decide ((v : WithTop ℚ) ≤ b))]
  | a :: b :: rest, values =>
      values.countP (fun (v : ℚ) => decide (a ≤ (v : WithTop ℚ)) &&
        decide ((v : WithTop ℚ) < b)) :: npHistogram (b :: rest) values
  | _, _ => []

/-- Python `round(x, 1)` on the percentage before it is returned
(`SpotService._filter_spots_uncached` line 306), modelled as rounding to
the nearest tenth; Python resolves exact half-ties to even, a case no
claim touches. -/
def round1 (q : ℚ) : ℚ := (⌊q * 10 + 1 / 2⌋ : ℚ) / 10

/-- The id-join loop of `_filter_spots_uncached` lines 259-265 (and
283-287): the spot-table slot `i` receives the histogram value of its id,
and spots absent from the histogram volume keep the zero the array was
initialized with. Embeds the loop's result for the duplicate-free id
lists the repositories load. -/
def tablePct (tableIds histIds : List String) (histPct : ℕ → ℚ) (i : ℕ) : ℚ :=
  match strIdx histIds (tableIds.getD i "") with
  | some h => histPct h
  | none => 0

/-- One row of the result list (`SpotWithStats` restricted to the fields
the filtering logic computes; name, latitude, longitude and country are
copied through unchanged from the spot table). -/
structure SpotStat where
  spot_id : String
  kiteable_percentage : ℚ
deriving DecidableEq

/-- The `pct_array` local of `SpotService._filter_spots_uncached`: the
vectorized percentages joined onto the spot table (with the wind-max
sentinel applied by `filter_spots`). -/
def pctArray (days : List String) (bins : List ℚ) (histIds : List String)
    (data : ℕ → ℕ → ℕ → ℚ) (windMin windMaxRaw : ℚ)
    (startDate endDate : String) (tableIds : List String) : ℕ → ℚ :=
  tablePct tableIds histIds
    (allPctArray days bins data windMin (effWindMax windMaxRaw) startDate endDate)

/-- Embeds `SpotService._filter_spots_uncached` for a loaded 1D volume:
vectorized percentages, zero-filled join onto the spot table, threshold
mask, optional country / name / sustained-wind criteria, passing indices
sorted by descending percentage, and rows with the percentage rounded to
one decimal. -/
def filterSpots
    (days : List String) (bins : List ℚ) (histIds : List String)
    (data : ℕ → ℕ → ℕ → ℚ)
    (sustainedIds : List String) (sdata : Option (ℕ → ℕ → ℕ → ℚ))
    (sbins : List ℚ) (snumBins : ℕ)
    (tableIds tableNames : List String) (tableCountries : List (Option String))
    (windMin : ℚ) (windMaxRaw : ℚ) (startDate endDate : String)
    (country : Option String) (nameQ : Option String)
    (minPct : ℚ) (sustainedMin : ℚ) (sustainedDaysMin : ℚ) : List SpotStat :=
  let pct : ℕ → ℚ :=
    pctArray days bins histIds data windMin windMaxRaw startDate endDate tableIds
  let baseMask : ℕ → Bool := fun i =>
    decide (minPct ≤ pct i)
    && (match country with
        | none => true
        | some c => decide (tableCountries.getD i none = some c))
    && (match nameQ with
        | none => true
        | some q => decide (List.IsInfix (q.toLower.toList)
            ((tableNames.getD i "").toLower.toList)))
  let mask : ℕ → Bool := fun i =>
    baseMask i &&
      (if 0 < sustainedMin then
        match sustainedPctArray days snumBins sbins sdata
            sustainedMin startDate endDate with
        | none => true
        | some spct =>
            decide (sustainedDaysMin ≤ tablePct tableIds sustainedIds spct i)
      else true)
  let passing := (List.range tableIds.length).filter mask
  let sorted := passing.mergeSort (fun i j => decide (pct j ≤ pct i))
  sorted.map (fun i => ⟨tableIds.getD i "", round1 (pct i)⟩)

/-! ### Helper lemmas -/

theorem strIdx_some {l : List String} {d : String} {i : ℕ}
    (h : strIdx l d = some i) : i < l.length ∧ l.getD i "" = d := by
  induction l generalizing i with
  | nil => simp [strIdx] at h
  | cons x xs ih =>
    by_cases hx : x = d
    · simp [strIdx, hx] at h
      subst h
      simp [hx]
    · simp [strIdx, hx] at h
      obtain ⟨j, hj, hji⟩ := h
      obtain ⟨h1, h2⟩ := ih hj
      subst hji
      refine ⟨?_, by simpa using h2⟩
      simp only [List.length_cons]
      omega

theorem strIdx_of_mem {l : List String} {d : String}
    (h : d ∈ l) : ∃ i, strIdx l d = some i := by
  induction l with
  | nil => simp at h
  | cons x xs ih =>
    by_cases hx : x = d
    · exact ⟨0, by simp [strIdx, hx]⟩
    · have hxs : d ∈ xs := by
        rcases List.mem_cons.mp h with h1 | h1
        · exact absurd h1.symm hx
        · exact h1
      obtain ⟨i, hi⟩ := ih hxs
      exact ⟨i + 1, by simp [strIdx, hx, hi]⟩

theorem cumSum_sub_eq {f : ℕ → ℚ} {m n : ℕ} (h : m ≤ n) :
    cumSum f n - cumSum f m = ∑ d ∈ Finset.Ico m n, f d := by
  rw [cumSum, cumSum, Finset.sum_Ico_eq_sub _ h]

/-! ### C1: prefix-sum range sums agree with naive sums -/

/-- C1. For every volume slice, spot and bin: for a non-wrapping date
range, `rangeSum` computed by prefix-sum subtraction equals the naive sum
of the volume cells over day indices `startIdx..endIdx`; for a wrapping
range it equals the naive sum over `[startIdx, last day]` plus the naive
sum over `[first day, endIdx]`. -/
theorem C1_prefix_range_sum (days : List String) (data : ℕ → ℕ → ℕ → ℚ)
    (s b : ℕ) (startDate endDate : String) (si ei : ℕ) (w : Bool)
    (hr : dayRangeIdx days startDate endDate = (si, ei, w))
    (h1 : w = false → si ≤ ei ∧ ei < days.length)
    (h2 : w = true → si < days.length) :
    rangeSum days (fun d => data s d b) startDate endDate =
      if w = true then
        (∑ d ∈ Finset.Icc si (days.length - 1), data s d b)
          + ∑ d ∈ Finset.Icc 0 ei, data s d b
      else ∑ d ∈ Finset.Icc si ei, data s d b := by
  have hcum0 : cumSum (fun d => data s d b) (ei + 1)
      = ∑ d ∈ Finset.Icc 0 ei, data s d b := by
    rw [cumSum, Finset.range_eq_Ico, Nat.Ico_succ_right]
  cases w with
  | false =>
    obtain ⟨hle, _⟩ := h1 rfl
    rw [if_neg (by simp)]
    have hrs : rangeSum days (fun d => data s d b) startDate endDate
        = cumSum (fun d => data s d b) (ei + 1)
          - cumSum (fun d => data s d b) si := by
      simp [rangeSum, hr]
    rw [hrs, cumSum_sub_eq (by omega : si ≤ ei + 1), Nat.Ico_succ_right]
  | true =>
    have hlen : si < days.length := h2 rfl
    rw [if_pos rfl]
    have hrs : rangeSum days (fun d => data s d b) startDate endDate
        = (cumSum (fun d => data s d b) days.length
            - cumSum (fun d => data s d b) si)
          + cumSum (fun d => data s d b) (ei + 1) := by
      simp [rangeSum, hr]
    rw [hrs, cumSum_sub_eq (le_of_lt hlen), hcum0]
    have hico : Finset.Ico si days.length = Finset.Icc si (days.length - 1) := by
      rw [← Nat.Ico_succ_right]
      congr 1
      omega
    rw [hico]

/-- Witness for C1 on a concrete 3-day calendar with a wrapping range. -/
theorem C1_prefix_range_sum_witness :
    rangeSum ["01-01", "01-02", "01-03"] (fun d => ((d * d + 1 : ℕ) : ℚ))
        "01-03" "01-01" =
      (∑ d ∈ Finset.Icc 2 2, ((d * d + 1 : ℕ) : ℚ))
        + ∑ d ∈ Finset.Icc 0 0, ((d * d + 1 : ℕ) : ℚ) := by
  have h := C1_prefix_range_sum ["01-01", "01-02", "01-03"]
    (fun _ d _ => ((d * d + 1 : ℕ) : ℚ)) 0 0 "01-03" "01-01" 2 0 true
    (by decide) (fun hc => by simp at hc) (fun _ => by norm_num)
  simpa using h

/-! ### C2 / C9: bin mask semantics and monotonicity -/

theorem binMask_length (bins : List ℚ) (windMin : ℚ) (windMax : WithTop ℚ) :
    (binMask bins windMin windMax).length = bins.length - 1 := by
  simp [binMask]

theorem binMask_getD_iff (bins : List ℚ) (windMin : ℚ) (windMax : WithTop ℚ)
    (i : ℕ) :
    (binMask bins windMin windMax).getD i false = true ↔
      (i < bins.length - 1 ∧ (bins.getD i 0 : WithTop ℚ) < windMax
        ∧ windMin < bins.getD (i + 1) 0) := by
  by_cases hi : i < bins.length - 1
  · rw [List.getD_eq_getElem?_getD]
    simp [binMask, List.getElem?_map, List.getElem?_range, hi]
  · rw [List.getD_eq_getElem?_getD]
    have : (binMask bins windMin windMax).length ≤ i := by
      rw [binMask_length]
      omega
    rw [List.getElem?_eq_none this]
    simp [hi]

theorem effWindMax_le_effWindMax {b b2 : ℚ} (h : b ≤ b2) :
    effWindMax b ≤ effWindMax b2 := by
  unfold effWindMax
  by_cases h1 : 100 ≤ b
  · rw [if_pos h1, if_pos (le_trans h1 h)]
  · by_cases h2 : 100 ≤ b2
    · rw [if_neg h1, if_pos h2]
      exact le_top
    · rw [if_neg h1, if_neg h2]
      exact_mod_cast h

/-- C2. A bin `i` with range `[bins[i], bins[i+1])` is selected by the bin
mask iff `bins[i] < windMax` and `bins[i+1] > windMin`, where a requested
`windMax` at or above the sentinel 100 counts as `+∞`; the mask always has
one entry per bin. -/
theorem C2_bin_mask (bins : List ℚ) (windMin windMax : ℚ) (i : ℕ)
    (hi : i < bins.length - 1) :
    (binMask bins windMin (effWindMax windMax)).length = bins.length - 1 ∧
    ((binMask bins windMin (effWindMax windMax)).getD i false = true ↔
      ((100 ≤ windMax ∨ bins.getD i 0 < windMax)
        ∧ windMin < bins.getD (i + 1) 0)) := by
  refine ⟨binMask_length _ _ _, ?_⟩
  rw [binMask_getD_iff]
  constructor
  · rintro ⟨-, hlow, hhigh⟩
    refine ⟨?_, hhigh⟩
    by_cases hs : 100 ≤ windMax
    · exact Or.inl hs
    · right
      rw [effWindMax, if_neg hs] at hlow
      exact_mod_cast hlow
  · rintro ⟨hlow, hhigh⟩
    refine ⟨hi, ?_, hhigh⟩
    by_cases hs : 100 ≤ windMax
    · rw [effWindMax, if_pos hs]
      exact WithTop.coe_lt_top _
    · rw [effWindMax, if_neg hs]
      rcases hlow with hlow | hlow
      · exact absurd hlow hs
      · exact_mod_cast hlow

/-- Witness for C2 at bins `[0, 5, 10]`, query range `[3, 4]`, bin 0. -/
theorem C2_bin_mask_witness :
    (0 < ([0, 5, 10] : List ℚ).length - 1) ∧
    ((binMask [0, 5, 10] (3 : ℚ) (effWindMax 4)).length
        = ([0, 5, 10] : List ℚ).length - 1 ∧
      ((binMask [0, 5, 10] (3 : ℚ) (effWindMax 4)).getD 0 false = true ↔
        ((100 ≤ (4 : ℚ) ∨ ([0, 5, 10] : List ℚ).getD 0 0 < 4)
          ∧ (3 : ℚ) < ([0, 5, 10] : List ℚ).getD 1 0))) :=
  ⟨by norm_num, C2_bin_mask [0, 5, 10] 3 4 0 (by norm_num)⟩

/-- C9. Widening the wind range never deselects a bin: if `[a, b]` is
contained in `[a2, b2]`, every bin selected for `[a, b]` is selected for
`[a2, b2]` (both with the 100-as-infinity sentinel applied). -/
theorem C9_bin_mask_monotone (bins : List ℚ) (a b a2 b2 : ℚ) (i : ℕ)
    (ha : a2 ≤ a) (hb : b ≤ b2)
    (h : (binMask bins a (effWindMax b)).getD i false = true) :
    (binMask bins a2 (effWindMax b2)).getD i false = true := by
  rw [binMask_getD_iff] at h ⊢
  obtain ⟨hi, hlow, hhigh⟩ := h
  exact ⟨hi, lt_of_lt_of_le hlow (effWindMax_le_effWindMax hb),
    lt_of_le_of_lt ha hhigh⟩

/-- Witness for C9: bin 1 of `[0, 5, 10]` selected for `[6, 8]` stays
selected for the wider `[2, 9]`. -/
theorem C9_bin_mask_monotone_witness :
    ((2 : ℚ) ≤ 6 ∧ (8 : ℚ) ≤ 9
      ∧ (binMask [0, 5, 10] (6 : ℚ) (effWindMax 8)).getD 1 false = true) ∧
    (binMask [0, 5, 10] (2 : ℚ) (effWindMax 9)).getD 1 false = true :=
  ⟨⟨by norm_num, by norm_num, by decide⟩,
    C9_bin_mask_monotone [0, 5, 10] 6 8 2 9 1 (by norm_num) (by norm_num)
      (by decide)⟩

/-! ### C8: day mask semantics and index fallback -/

theorem dayMask_getD (days : List String) (s e : String) (i : ℕ)
    (hi : i < days.length) :
    (dayMask days s e).getD i false = inDayRange s e (days.getD i "") := by
  rw [dayMask, List.getD_eq_getElem?_getD, List.getElem?_map,
    List.getElem?_eq_getElem hi]
  simp [List.getD_eq_getElem?_getD, List.getElem?_eq_getElem hi]

/-- C8. The day mask selects day `i` iff its "MM-DD" string lies in the
closed interval `[startDate, endDate]` (lexicographic order) for a
non-wrapping pair, and in `d ≥ startDate ∨ d ≤ endDate` for a wrapping
pair; and in the index-based variant, a date string missing from the
calendar falls back to index 0 (start) or the last index (end). -/
theorem C8_day_mask_and_fallback (days : List String) (startDate endDate : String)
    (i : ℕ) (hi : i < days.length) :
    ((dayMask days startDate endDate).getD i false = true ↔
      (if startDate ≤ endDate
       then startDate ≤ days.getD i "" ∧ days.getD i "" ≤ endDate
       else startDate ≤ days.getD i "" ∨ days.getD i "" ≤ endDate)) ∧
    (strIdx days startDate = none → (dayRangeIdx days startDate endDate).1 = 0) ∧
    (strIdx days endDate = none →
      (dayRangeIdx days startDate endDate).2.1 = days.length - 1) := by
  refine ⟨?_, ?_, ?_⟩
  · rw [dayMask_getD days startDate endDate i hi, inDayRange]
    by_cases hse : startDate ≤ endDate
    · rw [if_pos (strLE_iff.mpr hse), if_pos hse]
      simp [Bool.and_eq_true, strLE_iff]
    · rw [if_neg (fun hc => hse (strLE_iff.mp hc)), if_neg hse]
      simp [Bool.or_eq_true, strLE_iff]
  · intro h
    simp [dayRangeIdx, h]
  · intro h
    simp [dayRangeIdx, h]

/-- Witness for C8 on a 3-day calendar, with a start date absent from the
calendar (exercising the fallback) and a wrapping comparison. -/
theorem C8_day_mask_and_fallback_witness :
    (0 < (["01-10", "02-28", "11-01"] : List String).length) ∧
    (((dayMask ["01-10", "02-28", "11-01"] "03-15" "02-28").getD 0 false = true ↔
      (if ("03-15" : String) ≤ "02-28"
       then ("03-15" : String) ≤ (["01-10", "02-28", "11-01"] : List String).getD 0 ""
         ∧ (["01-10", "02-28", "11-01"] : List String).getD 0 "" ≤ "02-28"
       else ("03-15" : String) ≤ (["01-10", "02-28", "11-01"] : List String).getD 0 ""
         ∨ (["01-10", "02-28", "11-01"] : List String).getD 0 "" ≤ "02-28")) ∧
    (strIdx ["01-10", "02-28", "11-01"] "03-15" = none →
      (dayRangeIdx ["01-10", "02-28", "11-01"] "03-15" "02-28").1 = 0) ∧
    (strIdx ["01-10", "02-28", "11-01"] "02-28" = none →
      (dayRangeIdx ["01-10", "02-28", "11-01"] "03-15" "02-28").2.1
        = (["01-10", "02-28", "11-01"] : List String).length - 1)) :=
  ⟨by norm_num,
    C8_day_mask_and_fallback ["01-10", "02-28", "11-01"] "03-15" "02-28" 0
      (by norm_num)⟩

/-! ### C3: single-spot kiteable percentage -/

/-- C3. For a spot present in the volume with nonnegative counts, the
single-spot operation returns `None` exactly when the total over the
selected days is zero; otherwise it returns
`100 * in_range / total ∈ [0, 100]`. -/
theorem C3_kiteable_pct (days : List String) (bins : List ℚ)
    (spotIds : List String) (data : ℕ → ℕ → ℕ → ℚ) (spotId : String)
    (windMin : ℚ) (windMax : WithTop ℚ) (startDate endDate : String) (idx : ℕ)
    (hidx : strIdx spotIds spotId = some idx)
    (hnn : ∀ d b, 0 ≤ data idx d b) :
    (kiteablePct days bins spotIds data spotId windMin windMax startDate endDate
        = none ↔ spotTotal days bins data idx startDate endDate = 0) ∧
    (spotTotal days bins data idx startDate endDate ≠ 0 →
      ∃ p, kiteablePct days bins spotIds data spotId windMin windMax
          startDate endDate = some p ∧
        p = 100 * spotInRange days bins data idx windMin windMax startDate endDate
              / spotTotal days bins data idx startDate endDate ∧
        0 ≤ p ∧ p ≤ 100) := by
  have hk : kiteablePct days bins spotIds data spotId windMin windMax
      startDate endDate =
      if spotTotal days bins data idx startDate endDate = 0 then none
      else some (spotInRange days bins data idx windMin windMax startDate endDate
        / spotTotal days bins data idx startDate endDate * 100) := by
    rw [kiteablePct, hidx]
  have htnn : 0 ≤ spotTotal days bins data idx startDate endDate :=
    Finset.sum_nonneg (fun d _ => Finset.sum_nonneg (fun b _ => hnn d b))
  have hinn : 0 ≤ spotInRange days bins data idx windMin windMax startDate endDate :=
    Finset.sum_nonneg (fun d _ => Finset.sum_nonneg (fun b _ => hnn d b))
  have hsub : spotInRange days bins data idx windMin windMax startDate endDate
      ≤ spotTotal days bins data idx startDate endDate := by
    apply Finset.sum_le_sum
    intro d _
    exact Finset.sum_le_sum_of_subset_of_nonneg (Finset.filter_subset _ _)
      (fun b _ _ => hnn d b)
  constructor
  · rw [hk]
    split_ifs with h
    · simp [h]
    · simp [h]
  · intro h
    have htpos : 0 < spotTotal days bins data idx startDate endDate :=
      lt_of_le_of_ne htnn (Ne.symm h)
    refine ⟨_, by rw [hk, if_neg h], ?_, ?_, ?_⟩
    · rw [div_mul_eq_mul_div, mul_comm]
    · positivity
    · have hr : spotInRange days bins data idx windMin windMax startDate endDate
          / spotTotal days bins data idx startDate endDate ≤ 1 :=
        (div_le_one htpos).mpr hsub
      calc spotInRange days bins data idx windMin windMax startDate endDate
          / spotTotal days bins data idx startDate endDate * 100
          ≤ 1 * 100 := by
            exact mul_le_mul_of_nonneg_right hr (by norm_num)
        _ = 100 := one_mul 100

/-- All-ones volume used by concrete witnesses. -/
def ones3 : ℕ → ℕ → ℕ → ℚ := fun _ _ _ => 1

/-- Witness for C3 on a one-day, two-bin volume of all-ones counts. -/
theorem C3_kiteable_pct_witness :
    (strIdx ["s1"] "s1" = some 0 ∧ ∀ d b, (0 : ℚ) ≤ ones3 0 d b) ∧
    ((kiteablePct ["06-01"] [0, 5, 10] ["s1"] ones3 "s1"
        5 ((7 : ℚ) : WithTop ℚ) "06-01" "06-01" = none ↔
      spotTotal ["06-01"] [0, 5, 10] ones3 0 "06-01" "06-01" = 0) ∧
    (spotTotal ["06-01"] [0, 5, 10] ones3 0 "06-01" "06-01" ≠ 0 →
      ∃ p, kiteablePct ["06-01"] [0, 5, 10] ["s1"] ones3 "s1"
          5 ((7 : ℚ) : WithTop ℚ) "06-01" "06-01" = some p ∧
        p = 100 * spotInRange ["06-01"] [0, 5, 10] ones3 0
              5 ((7 : ℚ) : WithTop ℚ) "06-01" "06-01"
            / spotTotal ["06-01"] [0, 5, 10] ones3 0 "06-01" "06-01" ∧
        0 ≤ p ∧ p ≤ 100)) :=
  ⟨⟨by decide, fun d b => by norm_num [ones3]⟩,
    C3_kiteable_pct ["06-01"] [0, 5, 10] ["s1"] ones3 "s1"
      5 ((7 : ℚ) : WithTop ℚ) "06-01" "06-01" 0 (by decide)
      (fun d b => by norm_num [ones3])⟩

/-! ### Sorted-calendar lemmas: mask selection equals index-range selection -/

theorem sorted_getD_lt {days : List String} (hsort : List.Sorted (· < ·) days)
    {i j : ℕ} (hij : i < j) (hj : j < days.length) :
    days.getD i "" < days.getD j "" := by
  rw [List.getD_eq_getElem days "" (lt_trans hij hj),
    List.getD_eq_getElem days "" hj]
  exact List.pairwise_iff_getElem.mp hsort i j (lt_trans hij hj) hj hij

theorem idx_le_iff {days : List String} (hsort : List.Sorted (· < ·) days)
    {s : String} {si : ℕ} (hfound : strIdx days s = some si)
    {i : ℕ} (hi : i < days.length) :
    s ≤ days.getD i "" ↔ si ≤ i := by
  obtain ⟨hsi, hgs⟩ := strIdx_some hfound
  constructor
  · intro hle
    by_contra hlt
    push_neg at hlt
    have := sorted_getD_lt hsort hlt hsi
    rw [hgs] at this
    exact absurd hle (not_le.mpr this)
  · intro hge
    rcases eq_or_lt_of_le hge with h | h
    · rw [← h, hgs]
    · exact le_of_lt (hgs ▸ sorted_getD_lt hsort h hi)

theorem le_idx_iff {days : List String} (hsort : List.Sorted (· < ·) days)
    {e : String} {ei : ℕ} (hfound : strIdx days e = some ei)
    {i : ℕ} (hi : i < days.length) :
    days.getD i "" ≤ e ↔ i ≤ ei := by
  obtain ⟨hei, hge⟩ := strIdx_some hfound
  constructor
  · intro hle
    by_contra hlt
    push_neg at hlt
    have := sorted_getD_lt hsort hlt hi
    rw [hge] at this
    exact absurd hle (not_le.mpr this)
  · intro hge2
    rcases eq_or_lt_of_le hge2 with h | h
    · rw [h, hge]
    · exact le_of_lt (hge ▸ sorted_getD_lt hsort h hei)

theorem rangeSum_eq_maskSum {days : List String} (f : ℕ → ℚ)
    {startDate endDate : String} (hsort : List.Sorted (· < ·) days)
    (hs : startDate ∈ days) (he : endDate ∈ days) :
    rangeSum days f startDate endDate
      = ∑ d ∈ selectedDays days startDate endDate, f d := by
  obtain ⟨si, hsi⟩ := strIdx_of_mem hs
  obtain ⟨ei, hei⟩ := strIdx_of_mem he
  obtain ⟨hsilt, hsig⟩ := strIdx_some hsi
  obtain ⟨heilt, heig⟩ := strIdx_some hei
  have hridx : dayRangeIdx days startDate endDate
      = (si, ei, strLT endDate startDate) := by
    simp [dayRangeIdx, hsi, hei]
  by_cases hse : startDate ≤ endDate
  · have hwrap : strLT endDate startDate = false := by
      rw [← Bool.not_eq_true]
      intro hc
      exact absurd hse (not_le.mpr (strLT_iff.mp hc))
    have hsiei : si ≤ ei := by
      by_contra hc
      push_neg at hc
      have := sorted_getD_lt hsort hc hsilt
      rw [hsig, heig] at this
      exact absurd hse (not_le.mpr this)
    have hsel : selectedDays days startDate endDate = Finset.Icc si ei := by
      ext i
      simp only [selectedDays, Finset.mem_filter, Finset.mem_range,
        Finset.mem_Icc, inDayRange, if_pos (strLE_iff.mpr hse),
        Bool.and_eq_true]
      constructor
      · rintro ⟨hilt, h1, h2⟩
        exact ⟨(idx_le_iff hsort hsi hilt).mp (strLE_iff.mp h1),
          (le_idx_iff hsort hei hilt).mp (strLE_iff.mp h2)⟩
      · rintro ⟨h1, h2⟩
        have hilt : i < days.length := lt_of_le_of_lt h2 heilt
        exact ⟨hilt, strLE_iff.mpr ((idx_le_iff hsort hsi hilt).mpr h1),
          strLE_iff.mpr ((le_idx_iff hsort hei hilt).mpr h2)⟩
    have hrs : rangeSum days f startDate endDate
        = cumSum f (ei + 1) - cumSum f si := by
      simp [rangeSum, hridx, hwrap]
    rw [hrs, hsel, cumSum_sub_eq (by omega : si ≤ ei + 1), Nat.Ico_succ_right]
  · have hes : endDate < startDate := not_le.mp hse
    have hwrap : strLT endDate startDate = true := strLT_iff.mpr hes
    have heisi : ei < si := by
      by_contra hc
      push_neg at hc
      rcases eq_or_lt_of_le hc with h | h
      · rw [← h, hsig] at heig
        exact absurd heig.symm (ne_of_lt hes)
      · have := sorted_getD_lt hsort h heilt
        rw [hsig, heig] at this
        exact absurd this (not_lt.mpr (le_of_lt hes))
    have hsel : selectedDays days startDate endDate
        = Finset.Ico si days.length ∪ Finset.Icc 0 ei := by
      ext i
      simp only [selectedDays, Finset.mem_filter, Finset.mem_range,
        Finset.mem_union, Finset.mem_Ico, Finset.mem_Icc, inDayRange,
        if_neg (fun hc => hse (strLE_iff.mp hc)), Bool.or_eq_true]
      constructor
      · rintro ⟨hilt, h1 | h1⟩
        · exact Or.inl ⟨(idx_le_iff hsort hsi hilt).mp (strLE_iff.mp h1), hilt⟩
        · exact Or.inr ⟨Nat.zero_le i, (le_idx_iff hsort hei hilt).mp
            (strLE_iff.mp h1)⟩
      · rintro (⟨h1, h2⟩ | ⟨-, h1⟩)
        · exact ⟨h2, Or.inl (strLE_iff.mpr ((idx_le_iff hsort hsi h2).mpr h1))⟩
        · have hilt : i < days.length := lt_of_le_of_lt h1 heilt
          exact ⟨hilt, Or.inr (strLE_iff.mpr ((le_idx_iff hsort hei hilt).mpr h1))⟩
    have hdisj : Disjoint (Finset.Ico si days.length) (Finset.Icc 0 ei) := by
      rw [Finset.disjoint_left]
      intro i h1 h2
      rw [Finset.mem_Ico] at h1
      rw [Finset.mem_Icc] at h2
      omega
    have hrs : rangeSum days f startDate endDate
        = (cumSum f days.length - cumSum f si) + cumSum f (ei + 1) := by
      simp [rangeSum, hridx, hwrap]
    rw [hrs, hsel, Finset.sum_union hdisj,
      cumSum_sub_eq (le_of_lt hsilt)]
    congr 1
    rw [cumSum, Finset.range_eq_Ico, Nat.Ico_succ_right]

/-! ### C4: vectorized array agrees with the single-spot computation -/

/-- C4. On a sorted calendar containing both query dates, with nonnegative
counts: at every histogram spot index the vectorized percentage array
equals the single-spot percentage when the latter is defined, and is
exactly 0 when the single-spot operation reports no data. -/
theorem C4_array_vs_single (days : List String) (bins : List ℚ)
    (spotIds : List String) (data : ℕ → ℕ → ℕ → ℚ) (spotId : String)
    (windMin : ℚ) (windMax : WithTop ℚ) (startDate endDate : String) (s : ℕ)
    (hsort : List.Sorted (· < ·) days)
    (hs : startDate ∈ days) (he : endDate ∈ days)
    (hidx : strIdx spotIds spotId = some s)
    (hnn : ∀ d b, 0 ≤ data s d b) :
    (∀ p, kiteablePct days bins spotIds data spotId windMin windMax
        startDate endDate = some p →
      allPctArray days bins data windMin windMax startDate endDate s = p) ∧
    (kiteablePct days bins spotIds data spotId windMin windMax
        startDate endDate = none →
      allPctArray days bins data windMin windMax startDate endDate s = 0) := by
  have htot : rangeTotals days bins data startDate endDate s
      = spotTotal days bins data s startDate endDate := by
    rw [rangeTotals, spotTotal]
    rw [Finset.sum_congr rfl
      (fun b _ => rangeSum_eq_maskSum (fun d => data s d b) hsort hs he)]
    exact Finset.sum_comm
  have hin : rangeInRange days bins data windMin windMax startDate endDate s
      = spotInRange days bins data s windMin windMax startDate endDate := by
    rw [rangeInRange, spotInRange]
    rw [Finset.sum_congr rfl
      (fun b _ => rangeSum_eq_maskSum (fun d => data s d b) hsort hs he)]
    exact Finset.sum_comm
  have htnn : 0 ≤ spotTotal days bins data s startDate endDate :=
    Finset.sum_nonneg (fun d _ => Finset.sum_nonneg (fun b _ => hnn d b))
  have hk : kiteablePct days bins spotIds data spotId windMin windMax
      startDate endDate =
      if spotTotal days bins data s startDate endDate = 0 then none
      else some (spotInRange days bins data s windMin windMax startDate endDate
        / spotTotal days bins data s startDate endDate * 100) := by
    rw [kiteablePct, hidx]
  constructor
  · intro p hp
    rw [hk] at hp
    by_cases h0 : spotTotal days bins data s startDate endDate = 0
    · rw [if_pos h0] at hp
      exact absurd hp (by simp)
    · rw [if_neg h0] at hp
      have hppos : 0 < spotTotal days bins data s startDate endDate :=
        lt_of_le_of_ne htnn (Ne.symm h0)
      rw [allPctArray, htot, hin, if_pos hppos]
      exact Option.some_injective _ hp
  · intro hnone
    rw [hk] at hnone
    by_cases h0 : spotTotal days bins data s startDate endDate = 0
    · rw [allPctArray, htot, h0]
      simp
    · rw [if_neg h0] at hnone
      exact absurd hnone (by simp)

/-- Witness for C4 on a one-day calendar with all-ones counts. -/
theorem C4_array_vs_single_witness :
    (List.Sorted (· < ·) (["01-01"] : List String)
      ∧ ("01-01" : String) ∈ (["01-01"] : List String)
      ∧ strIdx ["s1"] "s1" = some 0
      ∧ ∀ d b, (0 : ℚ) ≤ ones3 0 d b) ∧
    ((∀ p, kiteablePct ["01-01"] [0, 5, 10] ["s1"] ones3 "s1"
        5 ((7 : ℚ) : WithTop ℚ) "01-01" "01-01" = some p →
      allPctArray ["01-01"] [0, 5, 10] ones3 5 ((7 : ℚ) : WithTop ℚ)
        "01-01" "01-01" 0 = p) ∧
    (kiteablePct ["01-01"] [0, 5, 10] ["s1"] ones3 "s1"
        5 ((7 : ℚ) : WithTop ℚ) "01-01" "01-01" = none →
      allPctArray ["01-01"] [0, 5, 10] ones3 5 ((7 : ℚ) : WithTop ℚ)
        "01-01" "01-01" 0 = 0)) :=
  ⟨⟨List.sorted_singleton _, by simp, by decide, fun d b => by norm_num [ones3]⟩,
    C4_array_vs_single ["01-01"] [0, 5, 10] ["s1"] ones3 "s1"
      5 ((7 : ℚ) : WithTop ℚ) "01-01" "01-01" 0
      (List.sorted_singleton _) (by simp) (by simp) (by decide)
      (fun d b => by norm_num [ones3])⟩

/-! ### C5: sustained-wind percentages -/

theorem countP_disjoint_add {α : Type} (p q pq : α → Bool) (l : List α)
    (hdisj : ∀ v ∈ l, ¬(p v = true ∧ q v = true))
    (hunion : ∀ v ∈ l, (pq v = true ↔ (p v = true ∨ q v = true))) :
    l.countP p + l.countP q = l.countP pq := by
  induction l with
  | nil => simp
  | cons x xs ih =>
    rw [List.countP_cons, List.countP_cons, List.countP_cons]
    have h1 := hdisj x (by simp)
    have h2 := hunion x (by simp)
    have ih2 := ih (fun v hv => hdisj v (by simp [hv]))
      (fun v hv => hunion v (by simp [hv]))
    by_cases hp : p x = true <;> by_cases hq : q x = true
    · exact absurd ⟨hp, hq⟩ h1
    · have hpq : pq x = true := h2.mpr (Or.inl hp)
      simp [hp, hq, hpq]
      omega
    · have hpq : pq x = true := h2.mpr (Or.inr hq)
      simp [hp, hq, hpq]
      omega
    · have hpq : pq x = false := by
        rw [← Bool.not_eq_true]
        intro hc
        rcases h2.mp hc with h | h
        · exact hp h
        · exact hq h
      simp [hp, hq, hpq]
      omega

theorem chain_head_le_last :
    ∀ (l : List (WithTop ℚ)) (x last : WithTop ℚ),
      List.Chain' (· ≤ ·) (x :: l) → (x :: l).getLast? = some last → x ≤ last
  | [], x, last, _, hlast => by
      simp only [List.getLast?_singleton, Option.some.injEq] at hlast
      rw [← hlast]
  | y :: l2, x, last, hchain, hlast => by
      obtain ⟨hxy, hch⟩ := List.chain'_cons.mp hchain
      have h2 := chain_head_le_last l2 y last hch
        (by rwa [List.getLast?_cons_cons] at hlast)
      exact le_trans hxy h2

theorem npHistogram_sum_aux :
    ∀ (rest : List (WithTop ℚ)) (a last : WithTop ℚ) (values : List ℚ),
      List.Chain' (· ≤ ·) (a :: rest) → (a :: rest).getLast? = some last →
      rest ≠ [] →
      (npHistogram (a :: rest) values).sum
        = values.countP (fun (v : ℚ) => decide (a ≤ (v : WithTop ℚ)) &&
            decide ((v : WithTop ℚ) ≤ last))
  | [], _, _, _, _, _, hne => absurd rfl hne
  | [b], a, last, values, _, hlast, _ => by
      have hb : last = b := by
        simp only [List.getLast?_cons_cons, List.getLast?_singleton,
          Option.some.injEq] at hlast
        exact hlast.symm
      subst hb
      simp [npHistogram]
  | b :: c :: rest2, a, last, values, hchain, hlast, _ => by
      obtain ⟨hab, hch⟩ := List.chain'_cons.mp hchain
      have hlast2 : (b :: c :: rest2).getLast? = some last := by
        rwa [List.getLast?_cons_cons] at hlast
      have hblast : b ≤ last := chain_head_le_last _ b last hch hlast2
      have ih := npHistogram_sum_aux (c :: rest2) b last values hch hlast2
        (by simp)
      have hstep : npHistogram (a :: b :: c :: rest2) values
          = values.countP (fun (v : ℚ) => decide (a ≤ (v : WithTop ℚ)) &&
              decide ((v : WithTop ℚ) < b))
            :: npHistogram (b :: c :: rest2) values := by
        rfl
      rw [hstep, List.sum_cons, ih]
      apply countP_disjoint_add
      · intro v _
        rintro ⟨h1, h2⟩
        simp only [Bool.and_eq_true, decide_eq_true_eq] at h1 h2
        exact absurd h2.1 (not_le.mpr h1.2)
      · intro v _
        simp only [Bool.and_eq_true, decide_eq_true_eq]
        constructor
        · rintro ⟨hav, hvl⟩
          rcases lt_or_le (v : WithTop ℚ) b with h | h
          · exact Or.inl ⟨hav, h⟩
          · exact Or.inr ⟨h, hvl⟩
        · rintro (⟨hav, hvb⟩ | ⟨hbv, hvl⟩)
          · exact ⟨hav, le_trans (le_of_lt hvb) hblast⟩
          · exact ⟨le_trans hab hbv, hvl⟩

theorem npHistogram_sum_eq_length (edges : List (WithTop ℚ)) (e0 : WithTop ℚ)
    (values : List ℚ)
    (hchain : List.Chain' (· ≤ ·) edges)
    (hhead : edges.head? = some e0)
    (hlast : edges.getLast? = some ⊤)
    (hlen : 2 ≤ edges.length)
    (hvals : ∀ v ∈ values, e0 ≤ (v : WithTop ℚ)) :
    (npHistogram edges values).sum = values.length := by
  match edges, hlen with
  | a :: b :: rest, _ =>
    have he0 : e0 = a := by
      simp only [List.head?_cons, Option.some.injEq] at hhead
      exact hhead.symm
    subst he0
    rw [npHistogram_sum_aux (b :: rest) e0 ⊤ values hchain hlast (by simp)]
    rw [List.countP_eq_length]
    intro v hv
    simp only [Bool.and_eq_true, decide_eq_true_eq]
    exact ⟨hvals v hv, le_top⟩

/-- C5. With the sustained volume storing the normalized per-day
percentage histograms (ETL normalization modelled from the spec), the
serving computation — sum of stored values from the threshold bin
onwards, averaged over the selected days — equals the arithmetic mean of
the per-day values `100 * (counts at/above the threshold bin) / (all
counts)`; and the builder's per-day bin counts (`np.histogram` over
edges ending at infinity) sum to the number of contributing calendar
days. -/
theorem C5_sustained_percentage (days : List String) (numBins : ℕ)
    (bins : List ℚ) (counts : ℕ → ℕ → ℕ → ℚ) (threshold : ℚ)
    (startDate endDate : String)
    (edges : List (WithTop ℚ)) (e0 : WithTop ℚ) (values : List ℚ)
    (hchain : List.Chain' (· ≤ ·) edges)
    (hhead : edges.head? = some e0)
    (hlast : edges.getLast? = some ⊤)
    (hlen : 2 ≤ edges.length)
    (hvals : ∀ v ∈ values, e0 ≤ (v : WithTop ℚ)) :
    (sustainedPctArray days numBins bins
        (some (fun s d b => normalizePerDay numBins (counts s d) b))
        threshold startDate endDate
      = some (fun s =>
          (∑ d ∈ selectedDays days startDate endDate,
            100 * (∑ b ∈ Finset.Ico (sustainedBinIndex bins threshold) numBins,
                counts s d b)
              / (∑ b ∈ Finset.range numBins, counts s d b))
            / ((selectedDays days startDate endDate).card : ℚ))) ∧
    (npHistogram edges values).sum = values.length := by
  constructor
  · rw [sustainedPctArray, Option.map_some']
    congr 1
    funext s
    show (∑ d ∈ selectedDays days startDate endDate,
        ∑ b ∈ Finset.Ico (sustainedBinIndex bins threshold) numBins,
          normalizePerDay numBins (counts s d) b)
        / ((selectedDays days startDate endDate).card : ℚ) = _
    congr 1
    apply Finset.sum_congr rfl
    intro d _
    rw [eq_comm]
    calc 100 * (∑ b ∈ Finset.Ico (sustainedBinIndex bins threshold) numBins,
            counts s d b) / (∑ b ∈ Finset.range numBins, counts s d b)
        = ∑ b ∈ Finset.Ico (sustainedBinIndex bins threshold) numBins,
            100 * counts s d b / (∑ b2 ∈ Finset.range numBins, counts s d b2) := by
          rw [Finset.mul_sum, Finset.sum_div]
      _ = ∑ b ∈ Finset.Ico (sustainedBinIndex bins threshold) numBins,
            normalizePerDay numBins (counts s d) b := by
          apply Finset.sum_congr rfl
          intro b _
          rw [normalizePerDay]
  · exact npHistogram_sum_eq_length edges e0 values hchain hhead hlast hlen hvals

/-- Witness for C5 with edges `[0, 5, ⊤]` and two sustained values. -/
theorem C5_sustained_percentage_witness :
    (List.Chain' (· ≤ ·) [(0 : WithTop ℚ), 5, ⊤]
      ∧ ([(0 : WithTop ℚ), 5, ⊤].head? = some 0)
      ∧ ([(0 : WithTop ℚ), 5, ⊤].getLast? = some ⊤)
      ∧ 2 ≤ [(0 : WithTop ℚ), 5, ⊤].length
      ∧ ∀ v ∈ ([3, 7] : List ℚ), (0 : WithTop ℚ) ≤ (v : WithTop ℚ)) ∧
    ((sustainedPctArray ["01-01"] 2 [0, 5] (some (fun s d b =>
        normalizePerDay 2 (ones3 s d) b)) 5 "01-01" "01-01"
      = some (fun s =>
          (∑ d ∈ selectedDays ["01-01"] "01-01" "01-01",
            100 * (∑ b ∈ Finset.Ico (sustainedBinIndex [0, 5] 5) 2, ones3 s d b)
              / (∑ b ∈ Finset.range 2, ones3 s d b))
            / ((selectedDays ["01-01"] "01-01" "01-01").card : ℚ))) ∧
    (npHistogram [(0 : WithTop ℚ), 5, ⊤] [3, 7]).sum = ([3, 7] : List ℚ).length) :=
  ⟨⟨(by rw [List.chain'_cons, List.chain'_pair];
        exact ⟨WithTop.coe_le_coe.mpr (by norm_num), le_top⟩),
      rfl, rfl, (by norm_num),
      (by intro v hv;
          fin_cases hv <;> norm_num)⟩,
    C5_sustained_percentage ["01-01"] 2 [0, 5] ones3 5 "01-01" "01-01"
      [(0 : WithTop ℚ), 5, ⊤] 0 [3, 7]
      (by rw [List.chain'_cons, List.chain'_pair];
          exact ⟨WithTop.coe_le_coe.mpr (by norm_num), le_top⟩)
      rfl rfl (by norm_num)
      (by intro v hv;
          fin_cases hv <;> norm_num)⟩

/-! ### C6: missing sustained volume degrades gracefully -/

/-- C6. When the sustained-wind volume is absent (the store reports no
data), a `filterSpots` call with a positive sustained-wind threshold
still produces a result list: the same one as with the sustained
criterion disabled — the optional feature degrades instead of failing. -/
theorem C6_missing_sustained_volume (days : List String) (bins : List ℚ)
    (histIds : List String) (data : ℕ → ℕ → ℕ → ℚ)
    (sustainedIds : List String) (sbins : List ℚ) (snumBins : ℕ)
    (tableIds tableNames : List String) (tableCountries : List (Option String))
    (windMin windMaxRaw : ℚ) (startDate endDate : String)
    (country nameQ : Option String) (minPct : ℚ)
    (sustainedMin sustainedDaysMin : ℚ)
    (hpos : 0 < sustainedMin) :
    filterSpots days bins histIds data sustainedIds none sbins snumBins
        tableIds tableNames tableCountries windMin windMaxRaw startDate endDate
        country nameQ minPct sustainedMin sustainedDaysMin
      = filterSpots days bins histIds data sustainedIds none sbins snumBins
        tableIds tableNames tableCountries windMin windMaxRaw startDate endDate
        country nameQ minPct 0 sustainedDaysMin := by
  simp [filterSpots, sustainedPctArray, hpos]

/-- Witness for C6: a concrete one-spot call with threshold 10. -/
theorem C6_missing_sustained_volume_witness :
    (0 : ℚ) < 10 ∧
    filterSpots ["01-01"] [0, 5, 10] ["s1"] ones3 ["s1"] none [0, 5] 2
        ["s1"] ["Spot One"] [some "NL"] 5 7 "01-01" "01-01"
        none none 75 10 50
      = filterSpots ["01-01"] [0, 5, 10] ["s1"] ones3 ["s1"] none [0, 5] 2
        ["s1"] ["Spot One"] [some "NL"] 5 7 "01-01" "01-01"
        none none 75 0 50 :=
  ⟨by norm_num,
    C6_missing_sustained_volume ["01-01"] [0, 5, 10] ["s1"] ones3 ["s1"]
      [0, 5] 2 ["s1"] ["Spot One"] [some "NL"] 5 7 "01-01" "01-01"
      none none 75 10 50 (by norm_num)⟩

/-! ### C7 / C10: filtering, ordering, rounding, absent spots -/

theorem round1_mono {a b : ℚ} (h : a ≤ b) : round1 a ≤ round1 b := by
  rw [round1, round1]
  have h2 : (⌊a * 10 + 1 / 2⌋ : ℤ) ≤ ⌊b * 10 + 1 / 2⌋ :=
    Int.floor_mono (by linarith)
  have h3 : ((⌊a * 10 + 1 / 2⌋ : ℤ) : ℚ) ≤ (⌊b * 10 + 1 / 2⌋ : ℚ) := by
    exact_mod_cast h2
  linarith

/-- Evaluation of `filterSpots` with no country, name or sustained-wind criteria,
written out as filter-sort-map over the joined percentage array. -/
theorem filterSpots_basic (days : List String) (bins : List ℚ)
    (histIds : List String) (data : ℕ → ℕ → ℕ → ℚ)
    (sustainedIds : List String) (sdata : Option (ℕ → ℕ → ℕ → ℚ))
    (sbins : List ℚ) (snumBins : ℕ)
    (tableIds tableNames : List String) (tableCountries : List (Option String))
    (windMin windMaxRaw : ℚ) (startDate endDate : String)
    (minPct sustainedDaysMin : ℚ) :
    filterSpots days bins histIds data sustainedIds sdata sbins snumBins
        tableIds tableNames tableCountries windMin windMaxRaw startDate endDate
        none none minPct 0 sustainedDaysMin
      = (((List.range tableIds.length).filter
            (fun i => decide (minPct ≤ pctArray days bins histIds data windMin
              windMaxRaw startDate endDate tableIds i))).mergeSort
          (fun i j => decide
            (pctArray days bins histIds data windMin windMaxRaw startDate
              endDate tableIds j
            ≤ pctArray days bins histIds data windMin windMaxRaw startDate
              endDate tableIds i))).map
        (fun i => ⟨tableIds.getD i "",
          round1 (pctArray days bins histIds data windMin windMaxRaw startDate
            endDate tableIds i)⟩) := by
  simp [filterSpots]

theorem mem_filterSpots_basic_iff (days : List String) (bins : List ℚ)
    (histIds : List String) (data : ℕ → ℕ → ℕ → ℚ)
    (sustainedIds : List String) (sdata : Option (ℕ → ℕ → ℕ → ℚ))
    (sbins : List ℚ) (snumBins : ℕ)
    (tableIds tableNames : List String) (tableCountries : List (Option String))
    (windMin windMaxRaw : ℚ) (startDate endDate : String)
    (minPct sustainedDaysMin : ℚ)
    (hnd : tableIds.Nodup) (i : ℕ) (hi : i < tableIds.length) :
    tableIds.getD i "" ∈ (filterSpots days bins histIds data sustainedIds sdata
        sbins snumBins tableIds tableNames tableCountries windMin windMaxRaw
        startDate endDate none none minPct 0 sustainedDaysMin).map
          SpotStat.spot_id
      ↔ minPct ≤ pctArray days bins histIds data windMin windMaxRaw startDate
          endDate tableIds i := by
  rw [filterSpots_basic, List.map_map]
  simp only [List.mem_map, List.mem_mergeSort, List.mem_filter,
    List.mem_range, Function.comp_apply, decide_eq_true_eq]
  constructor
  · rintro ⟨j, ⟨hj, hle⟩, hid⟩
    have : j = i := by
      rw [List.getD_eq_getElem tableIds "" hj, List.getD_eq_getElem tableIds "" hi]
        at hid
      exact (List.Nodup.getElem_inj_iff hnd).mp hid
    rwa [this] at hle
  · intro hle
    exact ⟨i, ⟨hi, hle⟩, rfl⟩

theorem filterSpots_basic_entries (days : List String) (bins : List ℚ)
    (histIds : List String) (data : ℕ → ℕ → ℕ → ℚ)
    (sustainedIds : List String) (sdata : Option (ℕ → ℕ → ℕ → ℚ))
    (sbins : List ℚ) (snumBins : ℕ)
    (tableIds tableNames : List String) (tableCountries : List (Option String))
    (windMin windMaxRaw : ℚ) (startDate endDate : String)
    (minPct sustainedDaysMin : ℚ) :
    ∀ e ∈ filterSpots days bins histIds data sustainedIds sdata sbins snumBins
        tableIds tableNames tableCountries windMin windMaxRaw startDate endDate
        none none minPct 0 sustainedDaysMin,
      ∃ j, j < tableIds.length ∧
        e.spot_id = tableIds.getD j "" ∧
        e.kiteable_percentage = round1 (pctArray days bins histIds data windMin
          windMaxRaw startDate endDate tableIds j) ∧
        minPct ≤ pctArray days bins histIds data windMin windMaxRaw startDate
          endDate tableIds j := by
  intro e he
  rw [filterSpots_basic] at he
  simp only [List.mem_map, List.mem_mergeSort, List.mem_filter,
    List.mem_range, decide_eq_true_eq] at he
  obtain ⟨j, ⟨hj, hle⟩, hje⟩ := he
  exact ⟨j, hj, by rw [← hje], by rw [← hje], hle⟩

theorem filterSpots_basic_sorted (days : List String) (bins : List ℚ)
    (histIds : List String) (data : ℕ → ℕ → ℕ → ℚ)
    (sustainedIds : List String) (sdata : Option (ℕ → ℕ → ℕ → ℚ))
    (sbins : List ℚ) (snumBins : ℕ)
    (tableIds tableNames : List String) (tableCountries : List (Option String))
    (windMin windMaxRaw : ℚ) (startDate endDate : String)
    (minPct sustainedDaysMin : ℚ) :
    ((filterSpots days bins histIds data sustainedIds sdata sbins snumBins
        tableIds tableNames tableCountries windMin windMaxRaw startDate endDate
        none none minPct 0 sustainedDaysMin).map
      SpotStat.kiteable_percentage).Pairwise (· ≥ ·) := by
  rw [filterSpots_basic, List.map_map]
  have hsorted := @List.sorted_mergeSort ℕ
    (fun i j => decide
      (pctArray days bins histIds data windMin windMaxRaw startDate endDate
        tableIds j
      ≤ pctArray days bins histIds data windMin windMaxRaw startDate endDate
        tableIds i))
    (fun a b c h1 h2 => by
      simp only [decide_eq_true_eq] at h1 h2 ⊢
      exact le_trans h2 h1)
    (fun a b => by
      simp only [Bool.or_eq_true, decide_eq_true_eq]
      exact le_total _ _)
    ((List.range tableIds.length).filter
      (fun i => decide (minPct ≤ pctArray days bins histIds data windMin
        windMaxRaw startDate endDate tableIds i)))
  rw [List.pairwise_map]
  apply hsorted.imp
  intro a b h
  simp only [decide_eq_true_eq] at h
  simpa using round1_mono h

/-- C7. With no country, name or sustained-wind criteria and a
duplicate-free spot table: the result contains exactly the spots whose
joined percentage is at least `minPercentage` (boundary included), its
percentages are in descending order, and every returned percentage is the
spot's percentage rounded to one decimal. -/
theorem C7_filter_sort_round (days : List String) (bins : List ℚ)
    (histIds : List String) (data : ℕ → ℕ → ℕ → ℚ)
    (sustainedIds : List String) (sdata : Option (ℕ → ℕ → ℕ → ℚ))
    (sbins : List ℚ) (snumBins : ℕ)
    (tableIds tableNames : List String) (tableCountries : List (Option String))
    (windMin windMaxRaw : ℚ) (startDate endDate : String)
    (minPct sustainedDaysMin : ℚ)
    (hnd : tableIds.Nodup) :
    (∀ i, i < tableIds.length →
      (tableIds.getD i "" ∈ (filterSpots days bins histIds data sustainedIds
          sdata sbins snumBins tableIds tableNames tableCountries windMin
          windMaxRaw startDate endDate none none minPct 0
          sustainedDaysMin).map SpotStat.spot_id
        ↔ minPct ≤ pctArray days bins histIds data windMin windMaxRaw
            startDate endDate tableIds i)) ∧
    ((filterSpots days bins histIds data sustainedIds sdata sbins snumBins
        tableIds tableNames tableCountries windMin windMaxRaw startDate endDate
        none none minPct 0 sustainedDaysMin).map
      SpotStat.kiteable_percentage).Pairwise (· ≥ ·) ∧
    (∀ e ∈ filterSpots days bins histIds data sustainedIds sdata sbins snumBins
        tableIds tableNames tableCountries windMin windMaxRaw startDate endDate
        none none minPct 0 sustainedDaysMin,
      ∃ j, j < tableIds.length ∧
        e.spot_id = tableIds.getD j "" ∧
        e.kiteable_percentage = round1 (pctArray days bins histIds data windMin
          windMaxRaw startDate endDate tableIds j) ∧
        minPct ≤ pctArray days bins histIds data windMin windMaxRaw startDate
          endDate tableIds j) :=
  ⟨fun i hi => mem_filterSpots_basic_iff days bins histIds data sustainedIds
      sdata sbins snumBins tableIds tableNames tableCountries windMin
      windMaxRaw startDate endDate minPct sustainedDaysMin hnd i hi,
    filterSpots_basic_sorted days bins histIds data sustainedIds sdata sbins
      snumBins tableIds tableNames tableCountries windMin windMaxRaw startDate
      endDate minPct sustainedDaysMin,
    filterSpots_basic_entries days bins histIds data sustainedIds sdata sbins
      snumBins tableIds tableNames tableCountries windMin windMaxRaw startDate
      endDate minPct sustainedDaysMin⟩

/-- Witness for C7 on a one-spot table. -/
theorem C7_filter_sort_round_witness :
    (["s1"] : List String).Nodup ∧
    ((∀ i, i < (["s1"] : List String).length →
      ((["s1"] : List String).getD i "" ∈ (filterSpots ["01-01"] [0, 5, 10]
          ["s1"] ones3 ["s1"] none [0, 5] 2 ["s1"] ["Spot One"] [some "NL"]
          5 7 "01-01" "01-01" none none 75 0 50).map SpotStat.spot_id
        ↔ (75 : ℚ) ≤ pctArray ["01-01"] [0, 5, 10] ["s1"] ones3 5 7
            "01-01" "01-01" ["s1"] i)) ∧
    ((filterSpots ["01-01"] [0, 5, 10] ["s1"] ones3 ["s1"] none [0, 5] 2
        ["s1"] ["Spot One"] [some "NL"] 5 7 "01-01" "01-01" none none 75 0
        50).map SpotStat.kiteable_percentage).Pairwise (· ≥ ·) ∧
    (∀ e ∈ filterSpots ["01-01"] [0, 5, 10] ["s1"] ones3 ["s1"] none [0, 5] 2
        ["s1"] ["Spot One"] [some "NL"] 5 7 "01-01" "01-01" none none 75 0 50,
      ∃ j, j < (["s1"] : List String).length ∧
        e.spot_id = (["s1"] : List String).getD j "" ∧
        e.kiteable_percentage = round1 (pctArray ["01-01"] [0, 5, 10] ["s1"]
          ones3 5 7 "01-01" "01-01" ["s1"] j) ∧
        (75 : ℚ) ≤ pctArray ["01-01"] [0, 5, 10] ["s1"] ones3 5 7 "01-01"
          "01-01" ["s1"] j)) :=
  ⟨by decide,
    C7_filter_sort_round ["01-01"] [0, 5, 10] ["s1"] ones3 ["s1"] none [0, 5]
      2 ["s1"] ["Spot One"] [some "NL"] 5 7 "01-01" "01-01" 75 50 (by decide)⟩

/-- C10. A spot present in the table but absent from the histogram volume
gets percentage exactly 0: with `minPercentage > 0` it is excluded; with
`minPercentage = 0` (and no other criteria) it is included, reported with
`kiteable_percentage` 0 like a genuinely 0% spot. -/
theorem C10_absent_spot_zero (days : List String) (bins : List ℚ)
    (histIds : List String) (data : ℕ → ℕ → ℕ → ℚ)
    (sustainedIds : List String) (sdata : Option (ℕ → ℕ → ℕ → ℚ))
    (sbins : List ℚ) (snumBins : ℕ)
    (tableIds tableNames : List String) (tableCountries : List (Option String))
    (windMin windMaxRaw : ℚ) (startDate endDate : String)
    (minPct sustainedDaysMin : ℚ)
    (hnd : tableIds.Nodup) (i : ℕ) (hi : i < tableIds.length)
    (habs : strIdx histIds (tableIds.getD i "") = none) :
    pctArray days bins histIds data windMin windMaxRaw startDate endDate
        tableIds i = 0 ∧
    (0 < minPct → tableIds.getD i "" ∉ (filterSpots days bins histIds data
        sustainedIds sdata sbins snumBins tableIds tableNames tableCountries
        windMin windMaxRaw startDate endDate none none minPct 0
        sustainedDaysMin).map SpotStat.spot_id) ∧
    tableIds.getD i "" ∈ (filterSpots days bins histIds data sustainedIds
        sdata sbins snumBins tableIds tableNames tableCountries windMin
        windMaxRaw startDate endDate none none 0 0
        sustainedDaysMin).map SpotStat.spot_id ∧
    (∀ e ∈ filterSpots days bins histIds data sustainedIds sdata sbins
        snumBins tableIds tableNames tableCountries windMin windMaxRaw
        startDate endDate none none 0 0 sustainedDaysMin,
      e.spot_id = tableIds.getD i "" → e.kiteable_percentage = 0) := by
  have h0 : pctArray days bins histIds data windMin windMaxRaw startDate
      endDate tableIds i = 0 := by
    simp only [pctArray, tablePct]
    rw [habs]
  refine ⟨h0, ?_, ?_, ?_⟩
  · intro hm
    rw [mem_filterSpots_basic_iff days bins histIds data sustainedIds sdata
      sbins snumBins tableIds tableNames tableCountries windMin windMaxRaw
      startDate endDate minPct sustainedDaysMin hnd i hi, h0]
    exact not_le.mpr hm
  · rw [mem_filterSpots_basic_iff days bins histIds data sustainedIds sdata
      sbins snumBins tableIds tableNames tableCountries windMin windMaxRaw
      startDate endDate 0 sustainedDaysMin hnd i hi, h0]
  · intro e he heq
    obtain ⟨j, hj, hid, hk, -⟩ := filterSpots_basic_entries days bins histIds
      data sustainedIds sdata sbins snumBins tableIds tableNames tableCountries
      windMin windMaxRaw startDate endDate 0 sustainedDaysMin e he
    have hji : j = i := by
      rw [heq] at hid
      rw [List.getD_eq_getElem tableIds "" hj, List.getD_eq_getElem tableIds "" hi]
        at hid
      exact (List.Nodup.getElem_inj_iff hnd).mp hid.symm
    rw [hk, hji, h0]
    norm_num [round1]

/-- Witness for C10: table spot `s1` absent from histogram ids `["h1"]`. -/
theorem C10_absent_spot_zero_witness :
    ((["s1"] : List String).Nodup ∧ 0 < (["s1"] : List String).length
      ∧ strIdx ["h1"] ((["s1"] : List String).getD 0 "") = none) ∧
    (pctArray ["01-01"] [0, 5, 10] ["h1"] ones3 5 7 "01-01" "01-01"
        ["s1"] 0 = 0 ∧
    ((0 : ℚ) < 75 → (["s1"] : List String).getD 0 "" ∉ (filterSpots ["01-01"]
        [0, 5, 10] ["h1"] ones3 ["s1"] none [0, 5] 2 ["s1"] ["Spot One"]
        [some "NL"] 5 7 "01-01" "01-01" none none 75 0 50).map
          SpotStat.spot_id) ∧
    (["s1"] : List String).getD 0 "" ∈ (filterSpots ["01-01"] [0, 5, 10]
        ["h1"] ones3 ["s1"] none [0, 5] 2 ["s1"] ["Spot One"] [some "NL"]
        5 7 "01-01" "01-01" none none 0 0 50).map SpotStat.spot_id ∧
    (∀ e ∈ filterSpots ["01-01"] [0, 5, 10] ["h1"] ones3 ["s1"] none [0, 5] 2
        ["s1"] ["Spot One"] [some "NL"] 5 7 "01-01" "01-01" none none 0 0 50,
      e.spot_id = (["s1"] : List String).getD 0 "" →
        e.kiteable_percentage = 0)) :=
  ⟨⟨by decide, by norm_num, by decide⟩,
    C10_absent_spot_zero ["01-01"] [0, 5, 10] ["h1"] ones3 ["s1"] none [0, 5]
      2 ["s1"] ["Spot One"] [some "NL"] 5 7 "01-01" "01-01" 75 50 (by decide)
      0 (by norm_num) (by decide)⟩

end Kiteapp
